import Mathlib

/-!
Verification of the risk-normalization engine (`risk_normalization.py`).

The Python code is embedded shallowly over `ℚ` (exact arithmetic in place of
IEEE floats).  Randomness is modelled by explicit streams of raw natural
numbers: `random.randint(0, n-1)` becomes reduction of the next raw value
modulo the pool size, and each curve / solver iteration consumes its own
stream.  Operations that can raise in Python (`randint` on an empty range,
float division by zero, `math.log` on a non-positive argument) are embedded
as `Except` computations with an explicit error value.
-/

namespace RiskNorm

/-- Errors raised by the Python runtime in the embedded fragments:
`valueError` (`random.randint` on an empty range, `math.log` out of domain is
`mathDomain`), `zeroDivision` (division by zero). -/
inductive PyError where
  | valueError : PyError
  | zeroDivision : PyError
  | mathDomain : PyError
deriving DecidableEq

/-- Division as Python performs it on scalars: raises `ZeroDivisionError`
on a zero divisor, otherwise exact division. -/
def pyDiv (a b : ℚ) : Except PyError ℚ :=
  if b = 0 then .error .zeroDivision else .ok (a / b)

/-- Model of `random.randint(0, hi)`: raises `ValueError` when the range is
empty (`hi < 0`), otherwise maps the raw draw into `[0, hi]` by reduction
modulo `hi + 1`. -/
def randint0 (hi : ℤ) (raw : ℕ) : Except PyError ℕ :=
  if hi < 0 then .error .valueError else .ok (raw % (hi.toNat + 1))

/-- Loop state of `make_one_equity_sequence`: current equity, running peak
equity, running maximum drawdown, and the `daily_equity` record of the
equity marked to market after each trade. -/
structure SimState where
  equity : ℚ
  max_equity : ℚ
  max_drawdown : ℚ
  daily_equity : List ℚ
deriving DecidableEq

/-- One iteration of the `for i in range(forecast_length)` loop in
`make_one_equity_sequence` (source lines 221-229): draw an index with
`random.randint(0, pool_size - 1)`, take that trade, update equity, peak
equity, drawdown and maximum drawdown, and record the equity. -/
def sim_step (trades : List ℚ) (fraction : ℚ) (raw : ℕ) (st : SimState) :
    Except PyError SimState :=
  match randint0 ((trades.length : ℤ) - 1) raw with
  | .error e => .error e
  | .ok trade_index =>
    let trade := trades.getD trade_index 0
    let trade_dollars := st.equity * fraction * trade
    let equity := st.equity + trade_dollars
    let max_equity := max equity st.max_equity
    match pyDiv (max_equity - equity) max_equity with
    | .error e => .error e
    | .ok drawdown =>
      .ok ⟨equity, max_equity, max drawdown st.max_drawdown,
           st.daily_equity ++ [equity]⟩

/-- The simulation loop, iterated over the list of step numbers; the stream
`draw` supplies the raw random value consumed at each step. -/
def sim_run (trades : List ℚ) (fraction : ℚ) (draw : ℕ → ℕ) :
    List ℕ → SimState → Except PyError SimState
  | [], st => .ok st
  | i :: rest, st =>
    match sim_step trades fraction (draw i) st with
    | .error e => .error e
    | .ok st' => sim_run trades fraction draw rest st'

/-- `make_one_equity_sequence` run to its full final state.  The
initialisation mirrors source lines 212-215: `equity = initial_capital`,
`max_equity = equity`, `max_drawdown = 0`, empty daily record. -/
def make_one_full (trades : List ℚ) (fraction : ℚ) (forecast_length : ℕ)
    (initial_capital : ℚ) (draw : ℕ → ℕ) : Except PyError SimState :=
  sim_run trades fraction draw (List.range forecast_length)
    ⟨initial_capital, initial_capital, 0, []⟩

/-- `make_one_equity_sequence(trades, fraction, forecast_length,
initial_capital)`: returns the pair `(equity, max_drawdown)`
(source line 237).  Plotting is omitted. -/
def make_one_equity_sequence (trades : List ℚ) (fraction : ℚ)
    (forecast_length : ℕ) (initial_capital : ℚ) (draw : ℕ → ℕ) :
    Except PyError (ℚ × ℚ) :=
  match make_one_full trades fraction forecast_length initial_capital draw with
  | .error e => .error e
  | .ok st => .ok (st.equity, st.max_drawdown)

/-- The `daily_equity` record produced by a run of
`make_one_equity_sequence` (empty if the run raises). -/
def dailyOf (trades : List ℚ) (fraction : ℚ) (forecast_length : ℕ)
    (initial_capital : ℚ) (draw : ℕ → ℕ) : List ℚ :=
  match make_one_full trades fraction forecast_length initial_capital draw with
  | .error _ => []
  | .ok st => st.daily_equity

/-- Insert a value into an already ascending list, keeping it ascending. -/
def insort (x : ℚ) : List ℚ → List ℚ
  | [] => [x]
  | y :: ys => if x ≤ y then x :: y :: ys else y :: insort x ys

/-- Ascending sort (model of `np.sort` on a one-dimensional array). -/
def sortList : List ℚ → List ℚ
  | [] => []
  | x :: xs => insort x (sortList xs)

/-- Floor of a rational, as a natural number index (negative values clamp
to `0`; for the non-negative positions arising in percentile computations
this is exactly `⌊q⌋`). -/
def pindex (q : ℚ) : ℕ := (⌊q⌋).toNat

/-- `np.percentile(xs, q)` with the default linear interpolation between
order statistics: position `q * (n - 1) / 100`, result
`lo + frac * (hi - lo)` for the two neighbouring order statistics. -/
def percentile (xs : List ℚ) (q : ℚ) : ℚ :=
  if xs.length = 0 then 0
  else
    let n := xs.length
    let pos : ℚ := q * ((n : ℚ) - 1) / 100
    let i : ℕ := pindex pos
    let frac : ℚ := pos - (i : ℚ)
    let lo := xs.getD i 0
    let hi := xs.getD (min (i + 1) (n - 1)) 0
    lo + frac * (hi - lo)

/-- The `for i in range(number_sequences)` loop shared by
`analyze_distribution_of_drawdown` and `form_distribution_of_equity`
(source lines 260-263 and 307-310): each pass calls
`make_one_equity_sequence(trades, fraction)` — only the fraction is passed
on, so the simulator runs with its default `forecast_length = 500` and
`initial_capital = 100000.0` — and appends final equity and maximum
drawdown to the two accumulating lists. -/
def collect_sequences (trades : List ℚ) (fraction : ℚ) (draws : ℕ → ℕ → ℕ) :
    ℕ → ℕ → List ℚ → List ℚ → Except PyError (List ℚ × List ℚ)
  | 0, _, equity_list, max_dd_list => .ok (equity_list, max_dd_list)
  | count + 1, i, equity_list, max_dd_list =>
    match make_one_equity_sequence trades fraction 500 100000 (draws i) with
    | .error e => .error e
    | .ok (equity, max_drawdown) =>
      collect_sequences trades fraction draws count (i + 1)
        (equity_list ++ [equity]) (max_dd_list ++ [max_drawdown])

/-- `analyze_distribution_of_drawdown` (source lines 240-271): collect the
maximum drawdowns of `number_sequences` simulated curves, sort them, and
return the percentile at `100 - tail_percentile`.  The parameters
`forecast_length`, `initial_capital` are present in the source signature
but never forwarded to the simulator; plotting is omitted. -/
def analyze_distribution_of_drawdown (trades : List ℚ) (fraction : ℚ)
    (forecast_length : ℕ) (initial_capital : ℚ) (number_sequences : ℕ)
    (tail_percentile : ℚ) (draws : ℕ → ℕ → ℕ) : Except PyError ℚ :=
  match collect_sequences trades fraction draws number_sequences 0 [] [] with
  | .error e => .error e
  | .ok (_, max_dd_list) =>
    .ok (percentile (sortList max_dd_list) (100 - tail_percentile))

/-- `compute_tail_risk` (source lines 274-294): wraps the scalar returned
by `analyze_distribution_of_drawdown(drawdowns, fraction)` as an array and
takes `np.percentile` of it at `100 - tail_percentile`. -/
def compute_tail_risk (drawdowns : List ℚ) (fraction : ℚ)
    (tail_percentile : ℚ) (draws : ℕ → ℕ → ℕ) : Except PyError ℚ :=
  match analyze_distribution_of_drawdown drawdowns fraction 500 100000 1000 5
      draws with
  | .error e => .error e
  | .ok t => .ok (percentile [t] (100 - tail_percentile))

/-- `form_distribution_of_equity` (source lines 297-316): collect the final
equities of `number_sequences` simulated curves and return them sorted.
As in the drawdown estimator, `forecast_length` and `initial_capital` are
accepted but not forwarded to the simulator. -/
def form_distribution_of_equity (trades : List ℚ) (fraction : ℚ)
    (forecast_length : ℕ) (initial_capital : ℚ) (number_sequences : ℕ)
    (draws : ℕ → ℕ → ℕ) : Except PyError (List ℚ) :=
  match collect_sequences trades fraction draws number_sequences 0 [] [] with
  | .error e => .error e
  | .ok (equity_list, _) => .ok (sortList equity_list)

/-- The module-level safe-f search (source lines 377-390), unrolled for
`fuel` iterations of the `while not done` loop (the source loop has no
iteration bound; `.ok none` means the loop is still running after `fuel`
passes).  `tr k f` is the tail risk estimated at iteration `k` for
fraction `f`; on success the result carries `(safe_f, fraction)` as left
by the loop: the source assigns `safe_f = tail_risk` and keeps `fraction`
unchanged. -/
def solve_safe_f (tr : ℕ → ℚ → Except PyError ℚ) (tol acc : ℚ) :
    ℕ → ℕ → ℚ → Except PyError (Option (ℚ × ℚ))
  | 0, _, _ => .ok none
  | fuel + 1, k, fraction =>
    match tr k fraction with
    | .error e => .error e
    | .ok tail_risk =>
      if |tail_risk - tol| < acc then .ok (some (tail_risk, fraction))
      else
        match pyDiv (fraction * tol) tail_risk with
        | .error e => .error e
        | .ok fraction' => solve_safe_f tr tol acc fuel (k + 1) fraction'

/-- The safe-f solver exactly as instantiated at module level:
`drawdown_tolerance = 0.10`, `desired_accuracy = 0.003`, initial
`fraction = 1.0`, tail risk estimated each pass by
`analyze_distribution_of_drawdown(trades, fraction)` (all other arguments
at their defaults). -/
def module_solver (trades : List ℚ) (draws : ℕ → ℕ → ℕ → ℕ) (fuel : ℕ) :
    Except PyError (Option (ℚ × ℚ)) :=
  solve_safe_f
    (fun k f =>
      analyze_distribution_of_drawdown trades f 500 100000 1000 5 (draws k))
    (1/10) (3/1000) fuel 0 1

/-- The module-level CAR25 computation (source lines 401-405):
`TWR25 = np.percentile(CDF_equity, 25)` followed by
`CAR25 = 100.0 * (math.exp((ppy / forecast_length) * math.log(TWR25 /
initial_capital)) - 1.0)`.  Division and `math.log` are embedded with
their Python failure modes. -/
noncomputable def CAR25_of_samples (samples : List ℚ) (initial_capital : ℚ)
    (forecast_length periods_per_year : ℚ) : Except PyError ℝ :=
  match pyDiv (percentile samples 25) initial_capital with
  | .error e => .error e
  | .ok r0 =>
    if 0 < r0 then
      .ok (100 * (Real.exp ((periods_per_year / forecast_length : ℚ) *
        Real.log (r0 : ℝ)) - 1))
    else .error .mathDomain

/-- Helper for the claim-side estimator definitions: run an
`Except`-valued producer over a list of indices, failing at the first
error. -/
def mapE (g : ℕ → Except PyError (ℚ × ℚ)) :
    List ℕ → Except PyError (List (ℚ × ℚ))
  | [] => .ok []
  | i :: is =>
    match g i with
    | .error e => .error e
    | .ok p =>
      match mapE g is with
      | .error e => .error e
      | .ok ps => .ok (p :: ps)

/-- Following the claim wording for the simulator recurrence: one step
updates equity by `equity * fraction * r`, takes the running maximum of
equity for `maxEquity`, the drawdown `(maxEquity - equity) / maxEquity`,
and the running maximum of drawdown. -/
def spec_step (tradePool : List ℚ) (fraction : ℚ) (idx : ℕ)
    (s : ℚ × ℚ × ℚ) : ℚ × ℚ × ℚ :=
  let r := tradePool.getD idx 0
  let equity := s.1 + s.1 * fraction * r
  let maxEquity := max s.2.1 equity
  let drawdown := (maxEquity - equity) / maxEquity
  (equity, maxEquity, max s.2.2 drawdown)

/-- The claim-side recurrence iterated over a list of step numbers. -/
def spec_fold (tradePool : List ℚ) (fraction : ℚ) (idx : ℕ → ℕ)
    (l : List ℕ) (s : ℚ × ℚ × ℚ) : ℚ × ℚ × ℚ :=
  l.foldl (fun s i => spec_step tradePool fraction (idx i) s) s

/-- Following the claim wording for `make_one_equity_sequence`: starting
from `(initialCapital, initialCapital, 0)`, perform `forecastLength`
recurrence steps at the drawn indices and return `(equity, maxDrawdown)`. -/
def spec_sequence (tradePool : List ℚ) (fraction : ℚ) (forecastLength : ℕ)
    (initialCapital : ℚ) (idx : ℕ → ℕ) : ℚ × ℚ :=
  let s := spec_fold tradePool fraction idx (List.range forecastLength)
    (initialCapital, initialCapital, 0)
  (s.1, s.2.2)

/-- Following the claim wording for the drawdown-mode estimator: run
`numberOfCurves` simulator invocations, each with the caller-supplied
fraction, forecast length and initial capital, sort the drawdowns and
take the percentile at `100 - tailPercentile`. -/
def analyze_distribution_of_drawdown_spec (trades : List ℚ) (fraction : ℚ)
    (forecast_length : ℕ) (initial_capital : ℚ) (number_sequences : ℕ)
    (tail_percentile : ℚ) (draws : ℕ → ℕ → ℕ) : Except PyError ℚ :=
  match mapE
      (fun i => make_one_equity_sequence trades fraction forecast_length
        initial_capital (draws i))
      (List.range number_sequences) with
  | .error e => .error e
  | .ok results =>
    .ok (percentile (sortList (results.map Prod.snd)) (100 - tail_percentile))

/-- Following the claim wording for the equity-mode estimator: run
`numberOfCurves` simulator invocations, each with the caller-supplied
fraction, forecast length and initial capital, and return the sorted
final equities. -/
def form_distribution_of_equity_spec (trades : List ℚ) (fraction : ℚ)
    (forecast_length : ℕ) (initial_capital : ℚ) (number_sequences : ℕ)
    (draws : ℕ → ℕ → ℕ) : Except PyError (List ℚ) :=
  match mapE
      (fun i => make_one_equity_sequence trades fraction forecast_length
        initial_capital (draws i))
      (List.range number_sequences) with
  | .error e => .error e
  | .ok results => .ok (sortList (results.map Prod.fst))

/-! ### Helper lemmas -/

theorem mem_insort {x y : ℚ} {l : List ℚ} : y ∈ insort x l ↔ y = x ∨ y ∈ l := by
  induction l with
  | nil => simp [insort]
  | cons a l ih =>
    by_cases h : x ≤ a
    · simp [insort, h]
    · simp [insort, h, ih]; tauto

theorem mem_sortList {y : ℚ} {l : List ℚ} : y ∈ sortList l ↔ y ∈ l := by
  induction l with
  | nil => simp [sortList]
  | cons a l ih => simp [sortList, mem_insort, ih]

theorem length_insort (x : ℚ) (l : List ℚ) :
    (insort x l).length = l.length + 1 := by
  induction l with
  | nil => simp [insort]
  | cons a l ih =>
    by_cases h : x ≤ a
    · simp [insort, h]
    · simp [insort, h, ih]

theorem length_sortList (l : List ℚ) : (sortList l).length = l.length := by
  induction l with
  | nil => simp [sortList]
  | cons a l ih => simp [sortList, length_insort, ih]

theorem percentile_singleton (t q : ℚ) : percentile [t] q = t := by
  simp [percentile, pindex]

theorem percentile_const {xs : List ℚ} {c q : ℚ} (hne : xs ≠ [])
    (hall : ∀ x ∈ xs, x = c) (hq : q ≤ 100) : percentile xs q = c := by
  have hlen : xs.length ≠ 0 := by simpa using List.length_pos.2 hne |>.ne'
  have h1 : 1 ≤ xs.length := Nat.one_le_iff_ne_zero.2 hlen
  have hpos : q * ((xs.length : ℚ) - 1) / 100 ≤ ((xs.length - 1 : ℕ) : ℚ) := by
    have hc : ((xs.length - 1 : ℕ) : ℚ) = (xs.length : ℚ) - 1 := by
      push_cast [Nat.cast_sub h1]; ring
    rw [hc, div_le_iff₀ (by norm_num : (0:ℚ) < 100)]
    have h0 : (0:ℚ) ≤ (xs.length : ℚ) - 1 := by
      have : (1:ℚ) ≤ (xs.length : ℚ) := by exact_mod_cast h1
      linarith
    nlinarith
  have hi : pindex (q * ((xs.length : ℚ) - 1) / 100) ≤ xs.length - 1 := by
    unfold pindex
    have := Int.floor_le_floor hpos
    rw [Int.floor_natCast] at this
    have := Int.toNat_le_toNat this
    simpa using this
  have hilt : pindex (q * ((xs.length : ℚ) - 1) / 100) < xs.length :=
    lt_of_le_of_lt hi (Nat.sub_lt (Nat.lt_of_lt_of_le Nat.zero_lt_one h1)
      Nat.zero_lt_one)
  have hmin : min (pindex (q * ((xs.length : ℚ) - 1) / 100) + 1)
      (xs.length - 1) < xs.length :=
    lt_of_le_of_lt (min_le_right _ _)
      (Nat.sub_lt (Nat.lt_of_lt_of_le Nat.zero_lt_one h1) Nat.zero_lt_one)
  have hlo : xs.getD (pindex (q * ((xs.length : ℚ) - 1) / 100)) 0 = c := by
    rw [List.getD_eq_getElem _ _ hilt]
    exact hall _ (List.getElem_mem _)
  have hhi : xs.getD (min (pindex (q * ((xs.length : ℚ) - 1) / 100) + 1)
      (xs.length - 1)) 0 = c := by
    rw [List.getD_eq_getElem _ _ hmin]
    exact hall _ (List.getElem_mem _)
  unfold percentile
  rw [if_neg hlen]
  simp only [hlo, hhi]
  ring

theorem nonempty_length_toNat {trades : List ℚ} (h : trades ≠ []) :
    ((trades.length : ℤ) - 1).toNat + 1 = trades.length := by
  cases trades with
  | nil => exact absurd rfl h
  | cons a l => simp [List.length_cons]

/-- A run over the singleton pool `[0]` keeps the equity fixed at the
initial capital and never sees a drawdown. -/
theorem sim_run_zero {f : ℚ} {draw : ℕ → ℕ} {ic : ℚ} (hic : ic ≠ 0) :
    ∀ (l : List ℕ) (dd : List ℚ),
      sim_run [0] f draw l ⟨ic, ic, 0, dd⟩ =
        .ok ⟨ic, ic, 0, dd ++ List.replicate l.length ic⟩ := by
  intro l
  induction l with
  | nil => intro dd; simp [sim_run]
  | cons i rest ih =>
    intro dd
    have hstep : sim_step [0] f (draw i) ⟨ic, ic, 0, dd⟩ =
        .ok ⟨ic, ic, 0, dd ++ [ic]⟩ := by
      simp [sim_step, randint0, pyDiv, hic]
    rw [sim_run, hstep]
    show sim_run [0] f draw rest ⟨ic, ic, 0, dd ++ [ic]⟩ = _
    rw [ih]
    simp [List.replicate_succ, List.append_assoc]

theorem make_one_zero {f : ℚ} {ic : ℚ} (hic : ic ≠ 0) (n : ℕ)
    (draw : ℕ → ℕ) :
    make_one_equity_sequence [0] f n ic draw = .ok (ic, 0) := by
  rw [make_one_equity_sequence, make_one_full, sim_run_zero hic]

theorem collect_zero (f : ℚ) (d2 : ℕ → ℕ → ℕ) :
    ∀ (count i : ℕ) (eqa dda : List ℚ),
      collect_sequences [0] f d2 count i eqa dda =
        .ok (eqa ++ List.replicate count 100000,
             dda ++ List.replicate count 0) := by
  intro count
  induction count with
  | zero => intro i eqa dda; simp [collect_sequences]
  | succ m ih =>
    intro i eqa dda
    rw [collect_sequences, make_one_zero (by norm_num : (100000:ℚ) ≠ 0)]
    show collect_sequences [0] f d2 m (i + 1) (eqa ++ [100000]) (dda ++ [0]) = _
    rw [ih]
    simp [List.replicate_succ, List.append_assoc]

theorem analyze_zero {f : ℚ} (fl : ℕ) (ic : ℚ) {n : ℕ} {tp : ℚ}
    (d2 : ℕ → ℕ → ℕ) (hn : n ≠ 0) (htp : 0 ≤ tp) :
    analyze_distribution_of_drawdown [0] f fl ic n tp d2 = .ok 0 := by
  rw [analyze_distribution_of_drawdown, collect_zero]
  simp only [List.nil_append]
  have hne : sortList (List.replicate n 0) ≠ [] := by
    intro h
    have := length_sortList (List.replicate n 0)
    rw [h] at this
    simp at this
    exact hn this.symm
  rw [percentile_const hne
    (fun x hx => List.eq_of_mem_replicate (mem_sortList.1 hx))
    (by linarith)]

/-- One simulation step on a non-empty pool with positive peak equity
never raises, and computes exactly the update of source lines 222-229. -/
theorem sim_step_ok {trades : List ℚ} (hne : trades ≠ []) (f : ℚ) (raw : ℕ)
    (e m dd : ℚ) (daily : List ℚ) (hm : 0 < m) :
    sim_step trades f raw ⟨e, m, dd, daily⟩ = .ok
      ⟨e + e * f * trades.getD (raw % trades.length) 0,
       max (e + e * f * trades.getD (raw % trades.length) 0) m,
       max ((max (e + e * f * trades.getD (raw % trades.length) 0) m -
             (e + e * f * trades.getD (raw % trades.length) 0)) /
            max (e + e * f * trades.getD (raw % trades.length) 0) m) dd,
       daily ++ [e + e * f * trades.getD (raw % trades.length) 0]⟩ := by
  have hlen : ¬ ((trades.length : ℤ) - 1 < 0) := by
    have := List.length_pos.2 hne
    omega
  have hm1 : ¬ (max (e + e * f * trades.getD (raw % trades.length) 0) m = 0) :=
    (lt_of_lt_of_le hm (le_max_right _ _)).ne'
  simp only [sim_step, randint0, if_neg hlen, nonempty_length_toNat hne,
    pyDiv, if_neg hm1]

/-- On a non-empty pool with positive initial peak, the simulation loop
computes exactly the claim-side recurrence (the daily record aside). -/
theorem sim_run_foldl {trades : List ℚ} (hne : trades ≠ []) (f : ℚ)
    (draw : ℕ → ℕ) :
    ∀ (l : List ℕ) (e m dd : ℚ) (daily : List ℚ), 0 < m →
      ∃ daily',
        sim_run trades f draw l ⟨e, m, dd, daily⟩ = .ok
          ⟨(spec_fold trades f (fun i => draw i % trades.length) l (e, m, dd)).1,
           (spec_fold trades f (fun i => draw i % trades.length) l (e, m, dd)).2.1,
           (spec_fold trades f (fun i => draw i % trades.length) l (e, m, dd)).2.2,
           daily'⟩ := by
  intro l
  induction l with
  | nil =>
    intro e m dd daily hm
    exact ⟨daily, by simp [sim_run, spec_fold]⟩
  | cons i rest ih =>
    intro e m dd daily hm
    have hm1 : (0:ℚ) <
        max (e + e * f * trades.getD (draw i % trades.length) 0) m :=
      lt_of_lt_of_le hm (le_max_right _ _)
    obtain ⟨daily', hrun⟩ := ih
      (e + e * f * trades.getD (draw i % trades.length) 0)
      (max (e + e * f * trades.getD (draw i % trades.length) 0) m)
      (max ((max (e + e * f * trades.getD (draw i % trades.length) 0) m -
             (e + e * f * trades.getD (draw i % trades.length) 0)) /
            max (e + e * f * trades.getD (draw i % trades.length) 0) m) dd)
      (daily ++ [e + e * f * trades.getD (draw i % trades.length) 0]) hm1
    refine ⟨daily', ?_⟩
    rw [sim_run, sim_step_ok hne f (draw i) e m dd daily hm]
    show sim_run trades f draw rest _ = _
    rw [hrun]
    simp only [spec_fold, List.foldl_cons, spec_step]
    rw [max_comm m (e + e * f * trades.getD (draw i % trades.length) 0),
        max_comm dd]

/-- Invariants of the simulation loop on a non-empty pool: the run never
raises, the peak equity stays positive, equity never exceeds the peak,
the maximum drawdown stays non-negative, the daily record only grows, and
if every recorded equity is non-negative the maximum drawdown stays at
most `1`. -/
theorem sim_run_bounds {trades : List ℚ} (hne : trades ≠ []) (f : ℚ)
    (draw : ℕ → ℕ) :
    ∀ (l : List ℕ) (e m dd : ℚ) (daily : List ℚ), 0 < m → e ≤ m → 0 ≤ dd →
      ∃ st', sim_run trades f draw l ⟨e, m, dd, daily⟩ = .ok st' ∧
        0 < st'.max_equity ∧ st'.equity ≤ st'.max_equity ∧
        0 ≤ st'.max_drawdown ∧
        (∀ x ∈ daily, x ∈ st'.daily_equity) ∧
        ((∀ x ∈ st'.daily_equity, 0 ≤ x) → dd ≤ 1 → st'.max_drawdown ≤ 1) := by
  intro l
  induction l with
  | nil =>
    intro e m dd daily hm he hdd
    exact ⟨⟨e, m, dd, daily⟩, by simp [sim_run], hm, he, hdd,
      fun x hx => hx, fun _ h => h⟩
  | cons i rest ih =>
    intro e m dd daily hm he hdd
    have hm1 : (0:ℚ) <
        max (e + e * f * trades.getD (draw i % trades.length) 0) m :=
      lt_of_lt_of_le hm (le_max_right _ _)
    have he1 : e + e * f * trades.getD (draw i % trades.length) 0 ≤
        max (e + e * f * trades.getD (draw i % trades.length) 0) m :=
      le_max_left _ _
    have hd0 : (0:ℚ) ≤
        (max (e + e * f * trades.getD (draw i % trades.length) 0) m -
          (e + e * f * trades.getD (draw i % trades.length) 0)) /
         max (e + e * f * trades.getD (draw i % trades.length) 0) m :=
      div_nonneg (by linarith) hm1.le
    obtain ⟨st', hrun, h1, h2, h3, h4, h5⟩ := ih
      (e + e * f * trades.getD (draw i % trades.length) 0)
      (max (e + e * f * trades.getD (draw i % trades.length) 0) m)
      (max ((max (e + e * f * trades.getD (draw i % trades.length) 0) m -
             (e + e * f * trades.getD (draw i % trades.length) 0)) /
            max (e + e * f * trades.getD (draw i % trades.length) 0) m) dd)
      (daily ++ [e + e * f * trades.getD (draw i % trades.length) 0])
      hm1 he1 (le_trans hd0 (le_max_left _ _))
    refine ⟨st', ?_, h1, h2, h3, ?_, ?_⟩
    · rw [sim_run, sim_step_ok hne f (draw i) e m dd daily hm]
      show sim_run trades f draw rest _ = _
      exact hrun
    · intro x hx
      exact h4 x (List.mem_append_left _ hx)
    · intro hpos hdd1
      refine h5 hpos (max_le ?_ hdd1)
      rw [div_le_one hm1]
      have hmem : e + e * f * trades.getD (draw i % trades.length) 0 ∈
          st'.daily_equity :=
        h4 _ (List.mem_append_right _ (List.mem_singleton_self _))
      have := hpos _ hmem
      linarith

/-- The estimator loop is the `mapE` of the simulator at the defaults
`forecast_length = 500`, `initial_capital = 100000`, with the two result
lists projected out. -/
theorem collect_eq_mapE (trades : List ℚ) (f : ℚ) (d2 : ℕ → ℕ → ℕ) :
    ∀ (count i : ℕ) (eqa dda : List ℚ),
      collect_sequences trades f d2 count i eqa dda =
        match mapE (fun j => make_one_equity_sequence trades f 500 100000
            (d2 j)) (List.range' i count) with
        | .error e => .error e
        | .ok ps => .ok (eqa ++ ps.map Prod.fst, dda ++ ps.map Prod.snd) := by
  intro count
  induction count with
  | zero =>
    intro i eqa dda
    simp [collect_sequences, mapE]
  | succ cnt ih =>
    intro i eqa dda
    rw [collect_sequences, List.range'_succ, mapE]
    cases h1 : make_one_equity_sequence trades f 500 100000 (d2 i) with
    | error e => rfl
    | ok p =>
      obtain ⟨eq1, dd1⟩ := p
      show collect_sequences trades f d2 cnt (i + 1)
          (eqa ++ [eq1]) (dda ++ [dd1]) = _
      rw [ih]
      cases h2 : mapE (fun j => make_one_equity_sequence trades f 500 100000
          (d2 j)) (List.range' (i + 1) cnt) with
      | error e => rfl
      | ok ps => simp

/-- The empty pool makes the first loop iteration's `randint` call raise
`ValueError`; there is no validation before the loop. -/
theorem make_one_empty (f ic : ℚ) (draw : ℕ → ℕ) (m : ℕ) :
    make_one_equity_sequence [] f (m + 1) ic draw = .error .valueError := by
  rw [make_one_equity_sequence, make_one_full, List.range_succ_eq_map]
  simp [sim_run, sim_step, randint0]

/-- The solver with no fuel left has produced no value yet. -/
theorem solve_safe_f_zero (tr : ℕ → ℚ → Except PyError ℚ) (tol acc : ℚ)
    (k : ℕ) (f : ℚ) : solve_safe_f tr tol acc 0 k f = .ok none :=
  rfl

/-- One unfolding of the solver loop. -/
theorem solve_safe_f_succ (tr : ℕ → ℚ → Except PyError ℚ) (tol acc : ℚ)
    (fuel k : ℕ) (f : ℚ) :
    solve_safe_f tr tol acc (fuel + 1) k f =
      match tr k f with
      | .error e => .error e
      | .ok tail_risk =>
        if |tail_risk - tol| < acc then .ok (some (tail_risk, f))
        else
          match pyDiv (f * tol) tail_risk with
          | .error e => .error e
          | .ok fraction' => solve_safe_f tr tol acc fuel (k + 1) fraction' :=
  rfl

/-- If the tail-risk estimate of the first unrolled iteration is `0`, the
solver run ends in the rescale's division-by-zero error. -/
theorem solve_safe_f_zero_risk (tr : ℕ → ℚ → Except PyError ℚ)
    (fuel k : ℕ) (f : ℚ) (h : tr k f = .ok 0) :
    solve_safe_f tr (1/10) (3/1000) (fuel + 1) k f =
      .error .zeroDivision := by
  rw [solve_safe_f_succ, h]
  norm_num [pyDiv, abs]

/-! ### Claims -/

/-- Claim C1: for every non-empty trade pool, fraction, positive forecast
length and positive initial capital, `make_one_equity_sequence` follows
exactly the specified recurrence — starting from `equity = initialCapital`,
`maxEquity = equity`, `maxDrawdown = 0`, it performs `forecastLength`
steps, each drawing an index in `[0, len(tradePool))` from the random
stream, updating equity by `equity * fraction * r`, the running peak, the
drawdown `(maxEquity - equity) / maxEquity` and the running maximum
drawdown, and returns `(equity, maxDrawdown)`. -/
theorem c1_simulator_follows_recurrence (trades : List ℚ) (f : ℚ) (n : ℕ)
    (ic : ℚ) (draw : ℕ → ℕ) (hne : trades ≠ []) (hic : 0 < ic)
    (hn : 0 < n) :
    make_one_equity_sequence trades f n ic draw =
      .ok (spec_sequence trades f n ic (fun i => draw i % trades.length)) := by
  obtain ⟨daily', h⟩ :=
    sim_run_foldl hne f draw (List.range n) ic ic 0 [] hic
  rw [make_one_equity_sequence, make_one_full, h]
  rfl

/-- Witness for C1 at the pool `[0.1]`, fraction `1`, two steps, initial
capital `100`. -/
theorem c1_witness :
    ([(1:ℚ)/10] ≠ []) ∧
    make_one_equity_sequence [(1:ℚ)/10] 1 2 100 (fun i => i) =
      .ok (spec_sequence [(1:ℚ)/10] 1 2 100
        (fun i => (fun i => i) i % [(1:ℚ)/10].length)) :=
  ⟨by simp, c1_simulator_follows_recurrence _ _ _ _ _ (by simp)
    (by norm_num) (by norm_num)⟩

/-- Claim C2: the source's termination branch executes
`safe_f = tail_risk`, not `safe_f = fraction`: here the loop converges at
once with tail risk `0.101` and fraction `1`, and the recorded safe-f is
`0.101`, which differs from the fraction. -/
theorem c2_safe_f_assigned_tail_risk :
    solve_safe_f (fun _ _ => .ok (101/1000)) (1/10) (3/1000) 1 0 1 =
      .ok (some (101/1000, 1)) ∧ ((101:ℚ)/1000 ≠ 1) := by
  constructor
  · norm_num [solve_safe_f, abs]
  · norm_num

/-- Claim C3, counterexample: on the trade pool `[0.0]` the solver neither
converges nor reports a non-convergence failure — its first iteration
estimates tail risk `0`, fails the accuracy test, and the rescale step
raises a division-by-zero error. -/
theorem c3_counterexample :
    module_solver [0] (fun _ _ _ => 0) 1 = .error .zeroDivision := by
  show solve_safe_f _ (1/10) (3/1000) (0 + 1) 0 1 = .error .zeroDivision
  refine solve_safe_f_zero_risk _ 0 0 1 ?_
  show analyze_distribution_of_drawdown [0] 1 500 100000 1000 5
    (fun _ _ => 0) = .ok 0
  exact analyze_zero 500 (100000:ℚ) (fun _ _ => 0) (by norm_num) (by norm_num)

/-- Claim C3, as amended: the loop has no iteration cap and no
non-convergence report — whenever the solver returns successfully, the
returned state passed the accuracy test `|tailRisk - tol| < acc` at some
iteration; no other exit path to a value exists. -/
theorem c3_success_only_by_accuracy_test (tr : ℕ → ℚ → Except PyError ℚ)
    (tol acc : ℚ) :
    ∀ (fuel k : ℕ) (f s fr : ℚ),
      solve_safe_f tr tol acc fuel k f = .ok (some (s, fr)) →
      ∃ k', tr k' fr = .ok s ∧ |s - tol| < acc := by
  intro fuel
  induction fuel with
  | zero =>
    intro k f s fr h
    rw [solve_safe_f_zero] at h
    simp at h
  | succ fuel ih =>
    intro k f s fr h
    rw [solve_safe_f_succ] at h
    split at h
    · simp at h
    · next t heq =>
      split at h
      · next hc =>
        simp only [Except.ok.injEq, Option.some.injEq, Prod.mk.injEq] at h
        obtain ⟨rfl, rfl⟩ := h
        exact ⟨k, heq, hc⟩
      · next hc =>
        split at h
        · simp at h
        · next f' heq2 => exact ih (k + 1) f' s fr h

/-- Witness for C3's amended statement: a solver run that converges in one
pass, at which the oracle indeed returned the recorded tail risk within
tolerance. -/
theorem c3_witness :
    solve_safe_f (fun _ _ => .ok ((1:ℚ)/10)) (1/10) (3/1000) 1 0 1 =
      .ok (some (1/10, 1)) ∧
    ∃ k', (fun _ _ => Except.ok ((1:ℚ)/10) :
        ℕ → ℚ → Except PyError ℚ) k' 1 = .ok (1/10) ∧
      |(1:ℚ)/10 - 1/10| < 3/1000 :=
  ⟨by norm_num [solve_safe_f, abs],
   c3_success_only_by_accuracy_test (fun _ _ => .ok ((1:ℚ)/10)) (1/10)
     (3/1000) 1 0 1 (1/10) 1 (by norm_num [solve_safe_f, abs])⟩

/-- Claim C4, counterexample: on the trade pool `[0.0]` the estimated tail
risk is `0` and out of tolerance, and the solver performs the rescale
division by zero — the run ends in the raw division-by-zero failure, not
in any reported degenerate-risk value. -/
theorem c4_counterexample :
    module_solver [0] (fun _ _ _ => 1) 2 = .error .zeroDivision := by
  show solve_safe_f _ (1/10) (3/1000) (1 + 1) 0 1 = .error .zeroDivision
  refine solve_safe_f_zero_risk _ 1 0 1 ?_
  show analyze_distribution_of_drawdown [0] 1 500 100000 1000 5
    (fun _ _ => 1) = .ok 0
  exact analyze_zero 500 (100000:ℚ) (fun _ _ => 1) (by norm_num) (by norm_num)

/-- Claim C4, as amended: whenever the estimated tail risk is `0` and the
accuracy test fails, the solver's next action is the rescale division by
zero, which raises; no degenerate-risk report exists. -/
theorem c4_zero_tail_risk_divides (tr : ℕ → ℚ → Except PyError ℚ)
    (tol acc : ℚ) (fuel k : ℕ) (f : ℚ) (h0 : tr k f = .ok 0)
    (hacc : acc ≤ |(0:ℚ) - tol|) :
    solve_safe_f tr tol acc (fuel + 1) k f = .error .zeroDivision := by
  have hlt : ¬ (|tol| < acc) := by
    rw [zero_sub, abs_neg] at hacc
    exact not_lt.2 hacc
  rw [solve_safe_f_succ, h0]
  simp [hlt, pyDiv]

/-- Witness for C4's amended statement at a concrete zero-risk oracle. -/
theorem c4_witness :
    (((fun _ _ => Except.ok (0:ℚ)) : ℕ → ℚ → Except PyError ℚ) 0 1 =
      Except.ok (0:ℚ)) ∧
    ((3:ℚ)/1000 ≤ |(0:ℚ) - 1/10|) ∧
    solve_safe_f (fun _ _ => .ok (0:ℚ)) (1/10) (3/1000) 1 0 1 =
      .error .zeroDivision :=
  ⟨rfl, by norm_num [abs],
   c4_zero_tail_risk_divides (fun _ _ => .ok (0:ℚ)) (1/10) (3/1000) 0 0 1
     rfl (by norm_num [abs])⟩

/-- Claim C5, counterexample: `form_distribution_of_equity` called with
caller-supplied `initial_capital = 1` still simulates at the default
initial capital `100000` — the claim-side estimator, which forwards the
caller's arguments, returns a different distribution. -/
theorem c5_counterexample :
    form_distribution_of_equity [(0:ℚ)] 1 500 1 1 (fun _ _ => 0) =
      .ok [100000] ∧
    form_distribution_of_equity_spec [(0:ℚ)] 1 500 1 1 (fun _ _ => 0) =
      .ok [1] ∧
    ((100000:ℚ) ≠ 1) := by
  refine ⟨?_, ?_, by norm_num⟩
  · rw [form_distribution_of_equity, collect_zero]
    simp [sortList, insort]
  · rw [form_distribution_of_equity_spec]
    have h1 : List.range 1 = [0] := rfl
    rw [h1, mapE, make_one_zero (by norm_num : (1:ℚ) ≠ 0), mapE]
    simp [sortList, insort]

/-- Claim C5, as amended: both estimators run `numberOfCurves` simulator
invocations with the caller-supplied fraction but the simulator defaults
`forecastLength = 500` and `initialCapital = 100000` (their own
`forecast_length` and `initial_capital` parameters are ignored), collect
the per-curve scalar, sort, and return the percentile at
`100 - tailPercentile` of the sorted drawdowns, respectively the full
sorted final-equity sample set. -/
theorem c5_estimators_use_simulator_defaults (trades : List ℚ) (f : ℚ)
    (fl : ℕ) (ic : ℚ) (n : ℕ) (tp : ℚ) (d2 : ℕ → ℕ → ℕ) :
    analyze_distribution_of_drawdown trades f fl ic n tp d2 =
      analyze_distribution_of_drawdown_spec trades f 500 100000 n tp d2 ∧
    form_distribution_of_equity trades f fl ic n d2 =
      form_distribution_of_equity_spec trades f 500 100000 n d2 := by
  have hr : List.range n = List.range' 0 n := List.range_eq_range' n
  constructor
  · rw [analyze_distribution_of_drawdown, collect_eq_mapE,
      analyze_distribution_of_drawdown_spec, hr]
    cases h : mapE (fun j => make_one_equity_sequence trades f 500 100000
        (d2 j)) (List.range' 0 n) with
    | error e => rfl
    | ok ps => simp
  · rw [form_distribution_of_equity, collect_eq_mapE,
      form_distribution_of_equity_spec, hr]
    cases h : mapE (fun j => make_one_equity_sequence trades f 500 100000
        (d2 j)) (List.range' 0 n) with
    | error e => rfl
    | ok ps => simp

/-- Claim C6: for a sample set whose interpolated 25th percentile is
positive and a positive initial capital, the computed CAR25 equals
`100 * (exp((periodsPerYear / forecastLength) * ln(terminalWealth25 /
initialCapital)) - 1)`. -/
theorem c6_car25_formula (samples : List ℚ) (ic fl ppy : ℚ)
    (h1 : 0 < percentile samples 25) (h2 : 0 < ic) :
    CAR25_of_samples samples ic fl ppy = .ok
      (100 * (Real.exp (((ppy : ℝ) / (fl : ℝ)) *
        Real.log ((percentile samples 25 : ℝ) / (ic : ℝ))) - 1)) := by
  have hne : ¬ (ic = 0) := h2.ne'
  have hpos : 0 < percentile samples 25 / ic := div_pos h1 h2
  simp only [CAR25_of_samples, pyDiv, if_neg hne, if_pos hpos]
  norm_num [Rat.cast_div]

/-- Witness for C6 at the sample set `[200000]` with the module constants
`initial_capital = 100000`, `forecast_length = 500`, `252` periods per
year. -/
theorem c6_witness :
    0 < percentile [(200000:ℚ)] 25 ∧
    CAR25_of_samples [200000] 100000 500 252 = .ok
      (100 * (Real.exp ((((252:ℚ) : ℝ) / ((500:ℚ) : ℝ)) *
        Real.log ((percentile [(200000:ℚ)] 25 : ℝ) / ((100000:ℚ) : ℝ))) - 1)) :=
  ⟨by norm_num [percentile, pindex],
   c6_car25_formula [200000] 100000 500 252
     (by norm_num [percentile, pindex]) (by norm_num)⟩

/-- Claim C7: on a non-empty pool with positive initial capital, if every
equity marked to market during the simulated sequence is non-negative,
the run succeeds, the returned maximum drawdown lies in `[0, 1]`, and the
drawdown divisor `max_equity` stays positive (the division is safe with
no explicit guard). -/
theorem c7_max_drawdown_unit_interval (trades : List ℚ) (f : ℚ) (n : ℕ)
    (ic : ℚ) (draw : ℕ → ℕ) (hne : trades ≠ []) (hic : 0 < ic)
    (hpath : ∀ x ∈ dailyOf trades f n ic draw, 0 ≤ x) :
    ∃ st, make_one_full trades f n ic draw = .ok st ∧
      make_one_equity_sequence trades f n ic draw =
        .ok (st.equity, st.max_drawdown) ∧
      0 ≤ st.max_drawdown ∧ st.max_drawdown ≤ 1 ∧ 0 < st.max_equity := by
  obtain ⟨st', hrun, h1, h2, h3, h4, h5⟩ :=
    sim_run_bounds hne f draw (List.range n) ic ic 0 [] hic le_rfl le_rfl
  have hfull : make_one_full trades f n ic draw = .ok st' := by
    rw [make_one_full]; exact hrun
  refine ⟨st', hfull, ?_, h3, ?_, h1⟩
  · rw [make_one_equity_sequence, hfull]
  · refine h5 ?_ (by norm_num)
    intro x hx
    apply hpath
    rw [dailyOf, hfull]
    exact hx

/-- Witness for C7 at the pool `[0.1]`, fraction `1`, two steps, initial
capital `100`. -/
theorem c7_witness :
    (∀ x ∈ dailyOf [(1:ℚ)/10] 1 2 100 (fun i => i), 0 ≤ x) ∧
    ∃ st, make_one_full [(1:ℚ)/10] 1 2 100 (fun i => i) = .ok st ∧
      make_one_equity_sequence [(1:ℚ)/10] 1 2 100 (fun i => i) =
        .ok (st.equity, st.max_drawdown) ∧
      0 ≤ st.max_drawdown ∧ st.max_drawdown ≤ 1 ∧ 0 < st.max_equity :=
  ⟨by
    have h2 : List.range 2 = [0, 1] := rfl
    norm_num [dailyOf, make_one_full, h2, sim_run, sim_step, randint0, pyDiv],
   c7_max_drawdown_unit_interval [(1:ℚ)/10] 1 2 100 (fun i => i)
     (by simp) (by norm_num)
     (by
       have h2 : List.range 2 = [0, 1] := rfl
       norm_num [dailyOf, make_one_full, h2, sim_run, sim_step, randint0,
         pyDiv])⟩

/-- Claim C8, counterexample: with a sample set whose 25th percentile is
negative, the CAR25 computation evaluates `math.log` on a non-positive
argument and raises the generic math-domain `ValueError`; no distinct
non-positive-terminal-wealth failure is produced. -/
theorem c8_counterexample :
    CAR25_of_samples [-1] 100000 500 252 = .error .mathDomain := by
  norm_num [CAR25_of_samples, percentile, pindex, pyDiv]

/-- Claim C8, as amended: whenever `terminalWealth25 ≤ 0` (with positive
initial capital) the code reaches `math.log` with a non-positive argument
and the run ends in the math-domain error raised there — there is no
guard before the logarithm and no distinct failure kind. -/
theorem c8_log_domain_error (samples : List ℚ) (ic fl ppy : ℚ)
    (h2 : 0 < ic) (h : percentile samples 25 ≤ 0) :
    CAR25_of_samples samples ic fl ppy = .error .mathDomain := by
  have hne : ¬ (ic = 0) := h2.ne'
  have hnp : ¬ (0 < percentile samples 25 / ic) :=
    not_lt.2 (div_nonpos_of_nonpos_of_nonneg h h2.le)
  simp only [CAR25_of_samples, pyDiv, if_neg hne, if_neg hnp]

/-- Witness for C8's amended statement at the sample set `[0]`. -/
theorem c8_witness :
    percentile [(0:ℚ)] 25 ≤ 0 ∧
    CAR25_of_samples [0] 100000 500 252 = .error .mathDomain :=
  ⟨by norm_num [percentile, pindex],
   c8_log_domain_error [0] 100000 500 252 (by norm_num)
     (by norm_num [percentile, pindex])⟩

/-- Claim C9, counterexample: `make_one_equity_sequence` on the empty
pool with `forecast_length = 0` reports no error at all — it returns
`(initial_capital, 0)`, so empty-pool input is not rejected before
simulation. -/
theorem c9_counterexample :
    make_one_equity_sequence ([] : List ℚ) 1 0 100000 (fun i => i) =
      .ok (100000, 0) := by
  norm_num [make_one_equity_sequence, make_one_full, sim_run]

/-- Claim C9, as amended: no upfront input validation exists — on an
empty pool with positive forecast length the failure is the `ValueError`
raised by the random draw inside the first loop iteration (the draw is
attempted), with zero forecast length the empty pool is silently
accepted, and the estimators merely propagate the loop's `ValueError`. -/
theorem c9_empty_pool_raises_in_loop (f ic : ℚ) (draw : ℕ → ℕ) (m : ℕ)
    (fl : ℕ) (d2 : ℕ → ℕ → ℕ) :
    make_one_equity_sequence [] f (m + 1) ic draw = .error .valueError ∧
    make_one_equity_sequence [] f 0 ic draw = .ok (ic, 0) ∧
    analyze_distribution_of_drawdown [] f fl ic (m + 1) 5 d2 =
      .error .valueError := by
  refine ⟨make_one_empty f ic draw m, ?_, ?_⟩
  · norm_num [make_one_equity_sequence, make_one_full, sim_run]
  · rw [analyze_distribution_of_drawdown, collect_sequences,
      make_one_empty f 100000 (d2 0) 499]

/-- Claim C10: `compute_tail_risk` returns exactly the scalar produced by
`analyze_distribution_of_drawdown(drawdowns, fraction)` on the same
random stream — the outer percentile of the single-element array is the
identity, so its `tail_percentile` parameter has no effect. -/
theorem c10_compute_tail_risk_identity (drawdowns : List ℚ)
    (fraction tp : ℚ) (draws : ℕ → ℕ → ℕ) :
    compute_tail_risk drawdowns fraction tp draws =
      analyze_distribution_of_drawdown drawdowns fraction 500 100000 1000 5
        draws := by
  rw [compute_tail_risk]
  cases h : analyze_distribution_of_drawdown drawdowns fraction 500 100000
      1000 5 draws with
  | error e => rfl
  | ok t => simp [percentile_singleton]

end RiskNorm
